import Mathlib

/-!
Verification development for the Radio Jamm practice-aid repository.

The embedding covers the four algorithmic cores of the code base:

* the guitar tuner (`Tuner` component): nearest-reference-pitch matching,
  cents computation, the ±50-cent publish gate and the sustained-hold
  "tuned" flag (`updateTuningInfo`), together with the pitch acceptance
  gate and the rolling-average smoother inside `detectPitch`;
* the callback-equipped metronome engine (`MetronomeSound` in
  `utils/MetronomeSound`): single-shot timer rescheduling, `start`,
  `stop`, `setBPM` with clamping;
* the legacy metronome engine embedded in the standalone `Metronome`
  page (repeating-interval variant, no clamping);
* the tap-tempo estimator of `MetronomeControls.handleTapTempo`.

Real-valued audio math (`Math.log2`, frequencies) is embedded over `ℝ`
with `Real.logb`; those few definitions are `noncomputable`.  Everything
else (metronome state machines, tap tempo, the pitch gate) is embedded
over `ℚ`/`ℤ` and is executable.  JavaScript's `%` on numbers truncates
toward zero, which is `Int.tmod`; `Math.round` is `round` (half away
from zero toward +∞ on the values that occur, i.e. `⌊x + 1/2⌋`).
-/

/-! ### Tuner data model (src/unnamed/part_000, `Tuner`) -/

/-- One entry of the `guitarStrings` React state: name, open-string
frequency in Hz, tuned flag.  The source also carries a
`tuningStartTime` field that is initialised to `null` and never
written; it is kept here for fidelity. -/
structure GuitarString where
  name : String
  freq : ℝ
  tuned : Bool
  tuningStartTime : Option ℤ

/-- The value used for out-of-bounds list access (never reached on the
six-string list). -/
def blankString : GuitarString := ⟨"", 0, false, none⟩

/-- The six fixed open-string reference entries, in definition order. -/
def initStrings : List GuitarString :=
  [⟨"E", 82.41, false, none⟩,
   ⟨"A", 110.00, false, none⟩,
   ⟨"D", 146.83, false, none⟩,
   ⟨"G", 196.00, false, none⟩,
   ⟨"B", 246.94, false, none⟩,
   ⟨"E", 329.63, false, none⟩]

/-- The immutable part of a string list: names and frequencies. -/
def skeletonOf (l : List GuitarString) : List (String × ℝ) :=
  l.map fun g => (g.name, g.freq)

/-- Names and frequencies of the six reference pitches. -/
def stdSkeleton : List (String × ℝ) :=
  [("E", 82.41), ("A", 110.00), ("D", 146.83),
   ("G", 196.00), ("B", 246.94), ("E", 329.63)]

/-- The linear scan of `updateTuningInfo`: starting from
`closest = guitarStrings[0]`, `minDiff = |freq - closest.freq|`, walk the
whole list and replace the champion whenever a strictly smaller absolute
difference is found (ties therefore keep the first occurrence). -/
noncomputable def closestScan (freq : ℝ) :
    List GuitarString → GuitarString → ℝ → GuitarString
  | [], c, _ => c
  | g :: rest, c, m =>
    if |freq - g.freq| < m then closestScan freq rest g (|freq - g.freq|)
    else closestScan freq rest c m

/-- `let closest = guitarStrings[0]; let minDiff = Math.abs(freq - closest.freq);
for (const string of guitarStrings) ...` -/
noncomputable def findClosest (freq : ℝ) (strings : List GuitarString) :
    GuitarString :=
  match strings with
  | [] => blankString
  | g :: _ => closestScan freq strings g (|freq - g.freq|)

/-- `Math.round(1200 * Math.log2(freq / closest.freq))`. -/
noncomputable def centsValue (freq ref : ℝ) : ℤ :=
  round (1200 * Real.logb 2 (freq / ref))

/-- `prev.map(str => str.name === closest.name ? { ...str, tuned: true } : str)` -/
def markTuned (nm : String) (l : List GuitarString) : List GuitarString :=
  l.map fun g => if g.name = nm then { g with tuned := true } else g

/-- Mutable tuner state: the `guitarStrings` state, the `lastNoteRef` and
`noteHoldTimeRef` refs, and the published `currentNote`/`cents` state. -/
structure TunerState where
  strings : List GuitarString
  lastNote : String
  noteHoldTime : ℤ
  currentNote : String
  cents : ℤ

/-- Initial tuner state (`lastNoteRef = ""`, `noteHoldTimeRef = 0`). -/
def initTuner : TunerState := ⟨initStrings, "", 0, "", 0⟩

/-- `updateTuningInfo(freq)` with the `Date.now()` reading passed in as
`now`.  Matches the source: nearest scan, cents, publish only within
±50 cents; on the same note name as last time, mark the string tuned
when `|cents| ≤ 5` and the name has been held for ≥ 2000 ms; on a new
name, reset the hold-start ref. -/
noncomputable def updateTuningInfo (s : TunerState) (freq : ℝ) (now : ℤ) :
    TunerState :=
  let closest := findClosest freq s.strings
  let cents := centsValue freq closest.freq
  if |cents| ≤ 50 then
    if s.lastNote = closest.name then
      if |cents| ≤ 5 ∧ now - s.noteHoldTime ≥ 2000 then
        { s with strings := markTuned closest.name s.strings,
                 currentNote := closest.name, cents := cents }
      else
        { s with currentNote := closest.name, cents := cents }
    else
      { s with lastNote := closest.name, noteHoldTime := now,
               currentNote := closest.name, cents := cents }
  else s

/-- Feed a sequence of (smoothed frequency, wall-clock ms) readings. -/
noncomputable def tunerRun (s : TunerState) (trace : List (ℝ × ℤ)) : TunerState :=
  trace.foldl (fun t p => updateTuningInfo t p.1 p.2) s

/-- List lookup with the blank default, for stating flag properties. -/
def getStr (l : List GuitarString) (i : ℕ) : GuitarString :=
  l.getD i blankString

/-! ### Pitch acceptance gate and smoother (src/unnamed/part_000, `detectPitch`)

The raw per-frame estimate `(detectedPitch, detectedClarity)` comes from
the external `pitchy` detector; the gate and the rolling average are the
repository's own code and are embedded exactly.  Frame values are
embedded over `ℚ`. -/

/-- `detectedClarity > 0.8 && detectedPitch > 50 && detectedPitch < 2000`. -/
def acceptPitch (pitch clarity : ℚ) : Bool :=
  decide ((0.8 : ℚ) < clarity) && decide ((50 : ℚ) < pitch) &&
    decide (pitch < 2000)

/-- One `detectPitch` cycle acting on the `pitchHistory` buffer: on an
accepted frame push the pitch, drop the oldest entry beyond 5, and emit
the arithmetic mean of the buffer (the buffer is never empty right after
a push); on a rejected frame clear the buffer and emit no pitch. -/
def detectStep (hist : List ℚ) (pitch clarity : ℚ) :
    List ℚ × Option ℚ :=
  if acceptPitch pitch clarity then
    let h1 := hist ++ [pitch]
    let h2 := if h1.length > 5 then h1.drop 1 else h1
    (h2, some (h2.sum / (h2.length : ℚ)))
  else ([], none)

/-! ### Callback-equipped metronome engine (src/unnamed/part_004) -/

/-- One audible/reported tick: the monotonic `beatCount` after the
increment, the measure position `currentBeat = beatCount % 4`, and
whether the click was synthesized as a downbeat. -/
structure Beat where
  beatCount : ℤ
  beatInMeasure : ℤ
  isDownbeat : Bool
deriving DecidableEq

/-- Engine state: `isPlaying`, the pending single-shot timer (its
interval in ms together with whether it was armed by `setBPM`, whose
callback differs textually from the regular one), `bpm`, `beatCount`,
`currentBeat`. -/
structure MetState where
  isPlaying : Bool
  pending : Option (ℚ × Bool)
  bpm : ℚ
  beatCount : ℤ
  currentBeat : ℤ
deriving DecidableEq

/-- Constructor state. -/
def metInit : MetState := ⟨false, none, 120, 0, 0⟩

/-- `playBeat()`: increment `beatCount`, set
`currentBeat = beatCount % 4`, report the beat (the `onBeat` callback
and the click, with downbeat timbre exactly on `beatInMeasure === 0`). -/
def playBeat (s : MetState) : MetState × Beat :=
  let bc := s.beatCount + 1
  let bim := Int.tmod bc 4
  ({ s with beatCount := bc, currentBeat := bim }, ⟨bc, bim, bim == 0⟩)

/-- `scheduleNextBeat()`: when playing, arm a single-shot timer for
`60000 / this.bpm` ms, reading the tempo at re-arm time. -/
def scheduleNextBeat (s : MetState) : MetState :=
  if s.isPlaying then { s with pending := some (60000 / s.bpm, false) } else s

/-- Externally visible events: the public methods plus the expiry of the
armed single-shot timer. -/
inductive MetEvent where
  | start
  | timerFire
  | stop
  | setBPM (v : ℚ)

/-- One step of the engine.  `timerFire` on an unarmed state is a no-op
(`clearTimeout` guarantees a cancelled timer never runs; the callback
additionally re-checks `isPlaying`).  The timer armed by `setBPM` first
advances `currentBeat` before calling `playBeat` (which overwrites it),
exactly as in the source. -/
def metStep (s : MetState) : MetEvent → MetState × List Beat
  | .start =>
    if s.isPlaying then (s, [])
    else
      let s1 : MetState :=
        { s with isPlaying := true, beatCount := -1, currentBeat := 0 }
      let r := playBeat s1
      (scheduleNextBeat r.1, [r.2])
  | .timerFire =>
    match s.pending with
    | none => (s, [])
    | some (_, fromSet) =>
      let s0 : MetState := { s with pending := none }
      if s0.isPlaying then
        if fromSet then
          let s1 : MetState :=
            { s0 with currentBeat := Int.tmod (s0.currentBeat + 1) 4 }
          let r := playBeat s1
          (scheduleNextBeat r.1, [r.2])
        else
          let r := playBeat s0
          (scheduleNextBeat r.1, [r.2])
      else (s0, [])
  | .stop =>
    ({ s with isPlaying := false, pending := none }, [])
  | .setBPM v =>
    let s1 : MetState := { s with bpm := min (max v 40) 300 }
    if s1.isPlaying && s1.pending.isSome then
      ({ s1 with pending := some (60000 / s1.bpm, true) }, [])
    else (s1, [])

/-- Generic event-sequence runner collecting the emitted outputs. -/
def runOf {σ ε β : Type} (step : σ → ε → σ × List β) :
    σ → List ε → σ × List β
  | s, [] => (s, [])
  | s, e :: es =>
    let r := step s e
    let t := runOf step r.1 es
    (t.1, r.2 ++ t.2)

/-- Run the callback-equipped engine over an event sequence. -/
def metRun : MetState → List MetEvent → MetState × List Beat :=
  runOf metStep

/-! ### Legacy metronome engine (src/unnamed/part_003, standalone page) -/

/-- Legacy engine state: repeating `setInterval` timer (period stored),
`bpm` (never clamped), `beatCount` (never incremented), `currentBeat`
(advanced after each click). -/
structure LegState where
  isPlaying : Bool
  interval : Option ℚ
  bpm : ℚ
  beatCount : ℤ
  currentBeat : ℤ
deriving DecidableEq

/-- Constructor state. -/
def legInit : LegState := ⟨false, none, 120, 0, 0⟩

/-- Legacy `playBeat()`: the downbeat timbre is chosen from the current
`currentBeat` before it is advanced; `beatCount` is untouched.  The
observable output is the downbeat flag of the click. -/
def legPlayBeat (s : LegState) : LegState × Bool :=
  (⟨s.isPlaying, s.interval, s.bpm, s.beatCount,
    Int.tmod (s.currentBeat + 1) 4⟩, s.currentBeat == 0)

/-- One step of the legacy engine: `start` plays a first beat and arms a
repeating timer at `60000 / bpm`; each expiry plays one beat; `stop`
clears the timer; `setBPM` stores the tempo unclamped and re-arms the
repeating timer at the new period when playing. -/
def legStep (s : LegState) : MetEvent → LegState × List Bool
  | .start =>
    if s.isPlaying then (s, [])
    else
      let s1 : LegState := { s with isPlaying := true, beatCount := 0 }
      let iv := 60000 / s1.bpm
      let r := legPlayBeat s1
      ({ r.1 with interval := some iv }, [r.2])
  | .timerFire =>
    match s.interval with
    | none => (s, [])
    | some _ =>
      let r := legPlayBeat s
      (r.1, [r.2])
  | .stop =>
    ({ s with isPlaying := false, interval := none }, [])
  | .setBPM v =>
    let s1 : LegState := { s with bpm := v }
    if s1.isPlaying && s1.interval.isSome then
      ({ s1 with interval := some (60000 / s1.bpm) }, [])
    else (s1, [])

/-- Run the legacy engine over an event sequence. -/
def legRun : LegState → List MetEvent → LegState × List Bool :=
  runOf legStep

/-! ### Tap tempo (src/src/components/MetronomeControls.tsx) -/

/-- `[...tapTimes, now].slice(-4)`: the 4 most recent entries. -/
def sliceLast4 (l : List ℤ) : List ℤ :=
  l.drop (l.length - 4)

/-- The consecutive inter-tap intervals `t[i] - t[i-1]`. -/
def tapIntervals (t : List ℤ) : List ℤ :=
  (t.zip t.tail).map fun p => p.2 - p.1

/-- `Math.round(60000 / averageInterval)` where `averageInterval` is the
arithmetic mean of the intervals. -/
def tapBpm (t : List ℤ) : ℤ :=
  round ((60000 : ℚ) /
    (((tapIntervals t).sum : ℚ) / ((tapIntervals t).length : ℚ)))

/-- `handleTapTempo` at time `now`: append, cap at 4, and with more than
one tap compute the BPM estimate, applying it only inside [40, 300]. -/
def registerTap (tapTimes : List ℤ) (now : ℤ) : List ℤ × Option ℤ :=
  let newTapTimes := sliceLast4 (tapTimes ++ [now])
  if newTapTimes.length > 1 then
    let bpm := tapBpm newTapTimes
    if 40 ≤ bpm ∧ bpm ≤ 300 then (newTapTimes, some bpm)
    else (newTapTimes, none)
  else (newTapTimes, none)

/-- Feed a sequence of tap timestamps through `handleTapTempo`,
returning the final history and the estimate of the last tap. -/
def tapFold (taps : List ℤ) : List ℤ × Option ℤ :=
  taps.foldl (fun acc t => registerTap acc.1 t) ([], none)

/-! ### Helper lemmas: nearest-reference matching -/

lemma strings_shape {l : List GuitarString} (h : skeletonOf l = stdSkeleton) :
    ∃ g0 g1 g2 g3 g4 g5 : GuitarString,
      l = [g0, g1, g2, g3, g4, g5] ∧
      g0.name = "E" ∧ g0.freq = 82.41 ∧ g1.name = "A" ∧ g1.freq = 110.00 ∧
      g2.name = "D" ∧ g2.freq = 146.83 ∧ g3.name = "G" ∧ g3.freq = 196.00 ∧
      g4.name = "B" ∧ g4.freq = 246.94 ∧ g5.name = "E" ∧ g5.freq = 329.63 := by
  rcases l with _ | ⟨g0, _ | ⟨g1, _ | ⟨g2, _ | ⟨g3, _ | ⟨g4, _ | ⟨g5, _ | ⟨g6, t⟩⟩⟩⟩⟩⟩⟩ <;>
    simp [skeletonOf, stdSkeleton] at h
  obtain ⟨⟨h0n, h0f⟩, ⟨h1n, h1f⟩, ⟨h2n, h2f⟩, ⟨h3n, h3f⟩, ⟨h4n, h4f⟩, h5n, h5f⟩ := h
  exact ⟨g0, g1, g2, g3, g4, g5, rfl, h0n, h0f, h1n, h1f, h2n, h2f,
    h3n, h3f, h4n, h4f, h5n, h5f⟩

lemma closestScan_keep (freq : ℝ) :
    ∀ (l : List GuitarString) (c : GuitarString) (m : ℝ),
      (∀ x ∈ l, ¬(|freq - x.freq| < m)) → closestScan freq l c m = c := by
  intro l
  induction l with
  | nil => intro c m _; rfl
  | cons x rest ih =>
    intro c m h
    rw [closestScan, if_neg (h x (by simp))]
    exact ih c m fun y hy => h y (by simp [hy])

lemma closestScan_pick (freq : ℝ) (g : GuitarString) :
    ∀ (l1 l2 : List GuitarString) (c : GuitarString),
      (∀ x ∈ l1, |freq - g.freq| < |freq - x.freq|) →
      (∀ x ∈ l2, |freq - g.freq| < |freq - x.freq|) →
      |freq - g.freq| < |freq - c.freq| →
      closestScan freq (l1 ++ g :: l2) c (|freq - c.freq|) = g := by
  intro l1
  induction l1 with
  | nil =>
    intro l2 c _ h2 hc
    rw [List.nil_append, closestScan, if_pos hc]
    exact closestScan_keep freq l2 g _ fun y hy => not_lt.mpr (h2 y hy).le
  | cons x rest ih =>
    intro l2 c h1 h2 hc
    rw [List.cons_append, closestScan]
    by_cases hx : |freq - x.freq| < |freq - c.freq|
    · rw [if_pos hx]
      exact ih l2 x (fun y hy => h1 y (by simp [hy])) h2 (h1 x (by simp))
    · rw [if_neg hx]
      exact ih l2 c (fun y hy => h1 y (by simp [hy])) h2 hc

lemma scan_picks_0 (freq : ℝ) (g0 g1 g2 g3 g4 g5 : GuitarString)
    (h1 : |freq - g0.freq| < |freq - g1.freq|)
    (h2 : |freq - g0.freq| < |freq - g2.freq|)
    (h3 : |freq - g0.freq| < |freq - g3.freq|)
    (h4 : |freq - g0.freq| < |freq - g4.freq|)
    (h5 : |freq - g0.freq| < |freq - g5.freq|) :
    findClosest freq [g0, g1, g2, g3, g4, g5] = g0 := by
  show closestScan freq [g0, g1, g2, g3, g4, g5] g0 (|freq - g0.freq|) = g0
  refine closestScan_keep freq _ g0 _ ?_
  intro x hx
  simp only [List.mem_cons, List.not_mem_nil, or_false] at hx
  rcases hx with rfl | rfl | rfl | rfl | rfl | rfl
  exacts [lt_irrefl _, not_lt.mpr h1.le, not_lt.mpr h2.le, not_lt.mpr h3.le,
    not_lt.mpr h4.le, not_lt.mpr h5.le]

lemma scan_picks_1 (freq : ℝ) (g0 g1 g2 g3 g4 g5 : GuitarString)
    (h0 : |freq - g1.freq| < |freq - g0.freq|)
    (h2 : |freq - g1.freq| < |freq - g2.freq|)
    (h3 : |freq - g1.freq| < |freq - g3.freq|)
    (h4 : |freq - g1.freq| < |freq - g4.freq|)
    (h5 : |freq - g1.freq| < |freq - g5.freq|) :
    findClosest freq [g0, g1, g2, g3, g4, g5] = g1 := by
  show closestScan freq ([g0] ++ g1 :: [g2, g3, g4, g5]) g0 (|freq - g0.freq|) = g1
  refine closestScan_pick freq g1 [g0] [g2, g3, g4, g5] g0 ?_ ?_ h0
  · intro x hx
    simp only [List.mem_cons, List.not_mem_nil, or_false] at hx
    rcases hx with rfl
    exact h0
  · intro x hx
    simp only [List.mem_cons, List.not_mem_nil, or_false] at hx
    rcases hx with rfl | rfl | rfl | rfl
    exacts [h2, h3, h4, h5]

lemma scan_picks_2 (freq : ℝ) (g0 g1 g2 g3 g4 g5 : GuitarString)
    (h0 : |freq - g2.freq| < |freq - g0.freq|)
    (h1 : |freq - g2.freq| < |freq - g1.freq|)
    (h3 : |freq - g2.freq| < |freq - g3.freq|)
    (h4 : |freq - g2.freq| < |freq - g4.freq|)
    (h5 : |freq - g2.freq| < |freq - g5.freq|) :
    findClosest freq [g0, g1, g2, g3, g4, g5] = g2 := by
  show closestScan freq ([g0, g1] ++ g2 :: [g3, g4, g5]) g0 (|freq - g0.freq|) = g2
  refine closestScan_pick freq g2 [g0, g1] [g3, g4, g5] g0 ?_ ?_ h0
  · intro x hx
    simp only [List.mem_cons, List.not_mem_nil, or_false] at hx
    rcases hx with rfl | rfl
    exacts [h0, h1]
  · intro x hx
    simp only [List.mem_cons, List.not_mem_nil, or_false] at hx
    rcases hx with rfl | rfl | rfl
    exacts [h3, h4, h5]

lemma scan_picks_3 (freq : ℝ) (g0 g1 g2 g3 g4 g5 : GuitarString)
    (h0 : |freq - g3.freq| < |freq - g0.freq|)
    (h1 : |freq - g3.freq| < |freq - g1.freq|)
    (h2 : |freq - g3.freq| < |freq - g2.freq|)
    (h4 : |freq - g3.freq| < |freq - g4.freq|)
    (h5 : |freq - g3.freq| < |freq - g5.freq|) :
    findClosest freq [g0, g1, g2, g3, g4, g5] = g3 := by
  show closestScan freq ([g0, g1, g2] ++ g3 :: [g4, g5]) g0 (|freq - g0.freq|) = g3
  refine closestScan_pick freq g3 [g0, g1, g2] [g4, g5] g0 ?_ ?_ h0
  · intro x hx
    simp only [List.mem_cons, List.not_mem_nil, or_false] at hx
    rcases hx with rfl | rfl | rfl
    exacts [h0, h1, h2]
  · intro x hx
    simp only [List.mem_cons, List.not_mem_nil, or_false] at hx
    rcases hx with rfl | rfl
    exacts [h4, h5]

lemma scan_picks_4 (freq : ℝ) (g0 g1 g2 g3 g4 g5 : GuitarString)
    (h0 : |freq - g4.freq| < |freq - g0.freq|)
    (h1 : |freq - g4.freq| < |freq - g1.freq|)
    (h2 : |freq - g4.freq| < |freq - g2.freq|)
    (h3 : |freq - g4.freq| < |freq - g3.freq|)
    (h5 : |freq - g4.freq| < |freq - g5.freq|) :
    findClosest freq [g0, g1, g2, g3, g4, g5] = g4 := by
  show closestScan freq ([g0, g1, g2, g3] ++ g4 :: [g5]) g0 (|freq - g0.freq|) = g4
  refine closestScan_pick freq g4 [g0, g1, g2, g3] [g5] g0 ?_ ?_ h0
  · intro x hx
    simp only [List.mem_cons, List.not_mem_nil, or_false] at hx
    rcases hx with rfl | rfl | rfl | rfl
    exacts [h0, h1, h2, h3]
  · intro x hx
    simp only [List.mem_cons, List.not_mem_nil, or_false] at hx
    rcases hx with rfl
    exact h5

lemma scan_picks_5 (freq : ℝ) (g0 g1 g2 g3 g4 g5 : GuitarString)
    (h0 : |freq - g5.freq| < |freq - g0.freq|)
    (h1 : |freq - g5.freq| < |freq - g1.freq|)
    (h2 : |freq - g5.freq| < |freq - g2.freq|)
    (h3 : |freq - g5.freq| < |freq - g3.freq|)
    (h4 : |freq - g5.freq| < |freq - g4.freq|) :
    findClosest freq [g0, g1, g2, g3, g4, g5] = g5 := by
  show closestScan freq ([g0, g1, g2, g3, g4] ++ g5 :: []) g0 (|freq - g0.freq|) = g5
  refine closestScan_pick freq g5 [g0, g1, g2, g3, g4] [] g0 ?_ ?_ h0
  · intro x hx
    simp only [List.mem_cons, List.not_mem_nil, or_false] at hx
    rcases hx with rfl | rfl | rfl | rfl | rfl
    exacts [h0, h1, h2, h3, h4]
  · intro x hx
    cases hx


lemma closest_near0 {l : List GuitarString} (hl : skeletonOf l = stdSkeleton)
    {freq : ℝ} (hlo : (82.41 : ℝ) * (100/103) ≤ freq)
    (hhi : freq ≤ (82.41 : ℝ) * (103/100)) :
    (findClosest freq l).name = "E" ∧ (findClosest freq l).freq = 82.41 := by
  obtain ⟨g0, g1, g2, g3, g4, g5, rfl, hn0, hf0, hn1, hf1, hn2, hf2,
    hn3, hf3, hn4, hf4, hn5, hf5⟩ := strings_shape hl
  norm_num at hlo hhi
  have e0 : |freq - g0.freq| < 3 := by
    rw [hf0, abs_lt]; constructor <;> linarith
  have e1 : (25 : ℝ) ≤ |freq - g1.freq| := by
    rw [hf1]; refine le_abs.mpr (Or.inr ?_); linarith
  have e2 : (61 : ℝ) ≤ |freq - g2.freq| := by
    rw [hf2]; refine le_abs.mpr (Or.inr ?_); linarith
  have e3 : (111 : ℝ) ≤ |freq - g3.freq| := by
    rw [hf3]; refine le_abs.mpr (Or.inr ?_); linarith
  have e4 : (162 : ℝ) ≤ |freq - g4.freq| := by
    rw [hf4]; refine le_abs.mpr (Or.inr ?_); linarith
  have e5 : (244 : ℝ) ≤ |freq - g5.freq| := by
    rw [hf5]; refine le_abs.mpr (Or.inr ?_); linarith
  rw [scan_picks_0 freq g0 g1 g2 g3 g4 g5 (by linarith) (by linarith) (by linarith) (by linarith) (by linarith)]
  exact ⟨hn0, hf0⟩

lemma closest_near1 {l : List GuitarString} (hl : skeletonOf l = stdSkeleton)
    {freq : ℝ} (hlo : (110.00 : ℝ) * (100/103) ≤ freq)
    (hhi : freq ≤ (110.00 : ℝ) * (103/100)) :
    (findClosest freq l).name = "A" ∧ (findClosest freq l).freq = 110.00 := by
  obtain ⟨g0, g1, g2, g3, g4, g5, rfl, hn0, hf0, hn1, hf1, hn2, hf2,
    hn3, hf3, hn4, hf4, hn5, hf5⟩ := strings_shape hl
  norm_num at hlo hhi
  have e1 : |freq - g1.freq| < 4 := by
    rw [hf1, abs_lt]; constructor <;> linarith
  have e0 : (24 : ℝ) ≤ |freq - g0.freq| := by
    rw [hf0]; refine le_abs.mpr (Or.inl ?_); linarith
  have e2 : (33 : ℝ) ≤ |freq - g2.freq| := by
    rw [hf2]; refine le_abs.mpr (Or.inr ?_); linarith
  have e3 : (82 : ℝ) ≤ |freq - g3.freq| := by
    rw [hf3]; refine le_abs.mpr (Or.inr ?_); linarith
  have e4 : (133 : ℝ) ≤ |freq - g4.freq| := by
    rw [hf4]; refine le_abs.mpr (Or.inr ?_); linarith
  have e5 : (216 : ℝ) ≤ |freq - g5.freq| := by
    rw [hf5]; refine le_abs.mpr (Or.inr ?_); linarith
  rw [scan_picks_1 freq g0 g1 g2 g3 g4 g5 (by linarith) (by linarith) (by linarith) (by linarith) (by linarith)]
  exact ⟨hn1, hf1⟩

lemma closest_near2 {l : List GuitarString} (hl : skeletonOf l = stdSkeleton)
    {freq : ℝ} (hlo : (146.83 : ℝ) * (100/103) ≤ freq)
    (hhi : freq ≤ (146.83 : ℝ) * (103/100)) :
    (findClosest freq l).name = "D" ∧ (findClosest freq l).freq = 146.83 := by
  obtain ⟨g0, g1, g2, g3, g4, g5, rfl, hn0, hf0, hn1, hf1, hn2, hf2,
    hn3, hf3, hn4, hf4, hn5, hf5⟩ := strings_shape hl
  norm_num at hlo hhi
  have e2 : |freq - g2.freq| < 5 := by
    rw [hf2, abs_lt]; constructor <;> linarith
  have e0 : (60 : ℝ) ≤ |freq - g0.freq| := by
    rw [hf0]; refine le_abs.mpr (Or.inl ?_); linarith
  have e1 : (32 : ℝ) ≤ |freq - g1.freq| := by
    rw [hf1]; refine le_abs.mpr (Or.inl ?_); linarith
  have e3 : (44 : ℝ) ≤ |freq - g3.freq| := by
    rw [hf3]; refine le_abs.mpr (Or.inr ?_); linarith
  have e4 : (95 : ℝ) ≤ |freq - g4.freq| := by
    rw [hf4]; refine le_abs.mpr (Or.inr ?_); linarith
  have e5 : (178 : ℝ) ≤ |freq - g5.freq| := by
    rw [hf5]; refine le_abs.mpr (Or.inr ?_); linarith
  rw [scan_picks_2 freq g0 g1 g2 g3 g4 g5 (by linarith) (by linarith) (by linarith) (by linarith) (by linarith)]
  exact ⟨hn2, hf2⟩

lemma closest_near3 {l : List GuitarString} (hl : skeletonOf l = stdSkeleton)
    {freq : ℝ} (hlo : (196.00 : ℝ) * (100/103) ≤ freq)
    (hhi : freq ≤ (196.00 : ℝ) * (103/100)) :
    (findClosest freq l).name = "G" ∧ (findClosest freq l).freq = 196.00 := by
  obtain ⟨g0, g1, g2, g3, g4, g5, rfl, hn0, hf0, hn1, hf1, hn2, hf2,
    hn3, hf3, hn4, hf4, hn5, hf5⟩ := strings_shape hl
  norm_num at hlo hhi
  have e3 : |freq - g3.freq| < 6 := by
    rw [hf3, abs_lt]; constructor <;> linarith
  have e0 : (107 : ℝ) ≤ |freq - g0.freq| := by
    rw [hf0]; refine le_abs.mpr (Or.inl ?_); linarith
  have e1 : (80 : ℝ) ≤ |freq - g1.freq| := by
    rw [hf1]; refine le_abs.mpr (Or.inl ?_); linarith
  have e2 : (43 : ℝ) ≤ |freq - g2.freq| := by
    rw [hf2]; refine le_abs.mpr (Or.inl ?_); linarith
  have e4 : (45 : ℝ) ≤ |freq - g4.freq| := by
    rw [hf4]; refine le_abs.mpr (Or.inr ?_); linarith
  have e5 : (127 : ℝ) ≤ |freq - g5.freq| := by
    rw [hf5]; refine le_abs.mpr (Or.inr ?_); linarith
  rw [scan_picks_3 freq g0 g1 g2 g3 g4 g5 (by linarith) (by linarith) (by linarith) (by linarith) (by linarith)]
  exact ⟨hn3, hf3⟩

lemma closest_near4 {l : List GuitarString} (hl : skeletonOf l = stdSkeleton)
    {freq : ℝ} (hlo : (246.94 : ℝ) * (100/103) ≤ freq)
    (hhi : freq ≤ (246.94 : ℝ) * (103/100)) :
    (findClosest freq l).name = "B" ∧ (findClosest freq l).freq = 246.94 := by
  obtain ⟨g0, g1, g2, g3, g4, g5, rfl, hn0, hf0, hn1, hf1, hn2, hf2,
    hn3, hf3, hn4, hf4, hn5, hf5⟩ := strings_shape hl
  norm_num at hlo hhi
  have e4 : |freq - g4.freq| < 8 := by
    rw [hf4, abs_lt]; constructor <;> linarith
  have e0 : (157 : ℝ) ≤ |freq - g0.freq| := by
    rw [hf0]; refine le_abs.mpr (Or.inl ?_); linarith
  have e1 : (129 : ℝ) ≤ |freq - g1.freq| := by
    rw [hf1]; refine le_abs.mpr (Or.inl ?_); linarith
  have e2 : (92 : ℝ) ≤ |freq - g2.freq| := by
    rw [hf2]; refine le_abs.mpr (Or.inl ?_); linarith
  have e3 : (43 : ℝ) ≤ |freq - g3.freq| := by
    rw [hf3]; refine le_abs.mpr (Or.inl ?_); linarith
  have e5 : (75 : ℝ) ≤ |freq - g5.freq| := by
    rw [hf5]; refine le_abs.mpr (Or.inr ?_); linarith
  rw [scan_picks_4 freq g0 g1 g2 g3 g4 g5 (by linarith) (by linarith) (by linarith) (by linarith) (by linarith)]
  exact ⟨hn4, hf4⟩

lemma closest_near5 {l : List GuitarString} (hl : skeletonOf l = stdSkeleton)
    {freq : ℝ} (hlo : (329.63 : ℝ) * (100/103) ≤ freq)
    (hhi : freq ≤ (329.63 : ℝ) * (103/100)) :
    (findClosest freq l).name = "E" ∧ (findClosest freq l).freq = 329.63 := by
  obtain ⟨g0, g1, g2, g3, g4, g5, rfl, hn0, hf0, hn1, hf1, hn2, hf2,
    hn3, hf3, hn4, hf4, hn5, hf5⟩ := strings_shape hl
  norm_num at hlo hhi
  have e5 : |freq - g5.freq| < 10 := by
    rw [hf5, abs_lt]; constructor <;> linarith
  have e0 : (237 : ℝ) ≤ |freq - g0.freq| := by
    rw [hf0]; refine le_abs.mpr (Or.inl ?_); linarith
  have e1 : (210 : ℝ) ≤ |freq - g1.freq| := by
    rw [hf1]; refine le_abs.mpr (Or.inl ?_); linarith
  have e2 : (173 : ℝ) ≤ |freq - g2.freq| := by
    rw [hf2]; refine le_abs.mpr (Or.inl ?_); linarith
  have e3 : (124 : ℝ) ≤ |freq - g3.freq| := by
    rw [hf3]; refine le_abs.mpr (Or.inl ?_); linarith
  have e4 : (73 : ℝ) ≤ |freq - g4.freq| := by
    rw [hf4]; refine le_abs.mpr (Or.inl ?_); linarith
  rw [scan_picks_5 freq g0 g1 g2 g3 g4 g5 (by linarith) (by linarith) (by linarith) (by linarith) (by linarith)]
  exact ⟨hn5, hf5⟩

/-! ### Helper lemmas: cents arithmetic -/

lemma rpow_cent_bounds {δ : ℝ} (h : |δ| ≤ 50) :
    (100/103 : ℝ) ≤ (2:ℝ) ^ (δ/1200) ∧ (2:ℝ) ^ (δ/1200) ≤ 103/100 := by
  obtain ⟨hd1, hd2⟩ := abs_le.mp h
  have key : ((2:ℝ) ^ ((1:ℝ)/24)) ≤ 103/100 := by
    by_contra hcon
    push_neg at hcon
    have hp : ((103/100:ℝ)) ^ (24:ℕ) < ((2:ℝ) ^ ((1:ℝ)/24)) ^ (24:ℕ) :=
      pow_lt_pow_left₀ hcon (by norm_num) (by norm_num)
    have h24 : ((2:ℝ) ^ ((1:ℝ)/24)) ^ (24:ℕ) = 2 := by
      rw [← Real.rpow_natCast ((2:ℝ) ^ ((1:ℝ)/24)) 24,
        ← Real.rpow_mul (by norm_num : (0:ℝ) ≤ 2)]
      norm_num
    rw [h24] at hp
    norm_num at hp
  constructor
  · have hneg : (2:ℝ) ^ (-((1:ℝ)/24)) ≤ (2:ℝ) ^ (δ/1200) :=
      Real.rpow_le_rpow_of_exponent_le (by norm_num) (by linarith)
    have hpos : (0:ℝ) < (2:ℝ) ^ ((1:ℝ)/24) :=
      Real.rpow_pos_of_pos (by norm_num) _
    have hinv : (2:ℝ) ^ (-((1:ℝ)/24)) = ((2:ℝ) ^ ((1:ℝ)/24))⁻¹ :=
      Real.rpow_neg (by norm_num) _
    have h103 : ((103/100:ℝ))⁻¹ ≤ ((2:ℝ) ^ ((1:ℝ)/24))⁻¹ := inv_anti₀ hpos key
    have h100 : (100/103 : ℝ) = (103/100)⁻¹ := by norm_num
    rw [hinv] at hneg
    linarith
  · calc (2:ℝ) ^ (δ/1200) ≤ (2:ℝ) ^ ((1:ℝ)/24) :=
        Real.rpow_le_rpow_of_exponent_le (by norm_num) (by linarith)
    _ ≤ 103/100 := key

lemma centsValue_shift (f δ : ℝ) (hf : f ≠ 0) :
    centsValue (f * (2:ℝ) ^ (δ/1200)) f = round δ := by
  unfold centsValue
  rw [mul_div_cancel_left₀ _ hf,
    Real.logb_rpow (by norm_num) (by norm_num)]
  congr 1
  ring

lemma round_abs_le {δ : ℝ} (h : |δ| ≤ 50) : |round δ| ≤ 50 := by
  obtain ⟨h1, h2⟩ := abs_le.mp h
  rw [abs_le]
  constructor
  · rw [round_eq]
    exact Int.le_floor.mpr (by push_cast; linarith)
  · rw [round_eq]
    have hle : (⌊δ + 1/2⌋ : ℤ) ≤ ⌊(50:ℝ) + 1/2⌋ := Int.floor_le_floor (by linarith)
    have h50 : (⌊(50:ℝ) + 1/2⌋ : ℤ) = 50 := by norm_num
    omega

lemma update_publishes (s : TunerState) (freq : ℝ) (now : ℤ)
    (h50 : |centsValue freq (findClosest freq s.strings).freq| ≤ 50) :
    (updateTuningInfo s freq now).currentNote = (findClosest freq s.strings).name ∧
    (updateTuningInfo s freq now).cents =
      centsValue freq (findClosest freq s.strings).freq := by
  simp only [updateTuningInfo]
  rw [if_pos h50]
  split_ifs <;> simp

lemma c1_case (s : TunerState) (freq f δ : ℝ) (now : ℤ) (nm : String)
    (hc1 : (findClosest freq s.strings).name = nm)
    (hc2 : (findClosest freq s.strings).freq = f)
    (hcents : centsValue freq f = round δ) (h50 : |round δ| ≤ 50) :
    (findClosest freq s.strings).name = nm ∧
    (findClosest freq s.strings).freq = f ∧
    centsValue freq f = round δ ∧
    |round δ| ≤ 50 ∧
    (updateTuningInfo s freq now).currentNote = nm ∧
    (updateTuningInfo s freq now).cents = round δ := by
  have hp := update_publishes s freq now (by rw [hc2, hcents]; exact h50)
  exact ⟨hc1, hc2, hcents, h50, by rw [hp.1, hc1],
    by rw [hp.2, hc2, hcents]⟩

/-! ### C1 -/

/-- C1: for every reference pitch among the six open-string entries,
identified by its (name, frequency) pair, and every offset `δ` with
`|δ| ≤ 50` cents, feeding the tracker the frequency `f * 2^(δ/1200)`
matches that reference (the entry minimizing the absolute Hz difference,
first occurrence winning ties) and publishes
`centsOffset = round(1200 * log2(freq/f)) = round δ`, which passes the
±50-cent publish gate, so `currentNote` and `cents` are updated. -/
theorem tuner_match_and_cents (s : TunerState)
    (hs : skeletonOf s.strings = stdSkeleton)
    (nm : String) (f : ℝ) (hmem : (nm, f) ∈ stdSkeleton)
    (δ : ℝ) (hδ : |δ| ≤ 50) (now : ℤ) :
    (findClosest (f * (2:ℝ) ^ (δ/1200)) s.strings).name = nm ∧
    (findClosest (f * (2:ℝ) ^ (δ/1200)) s.strings).freq = f ∧
    centsValue (f * (2:ℝ) ^ (δ/1200)) f = round δ ∧
    |round δ| ≤ 50 ∧
    (updateTuningInfo s (f * (2:ℝ) ^ (δ/1200)) now).currentNote = nm ∧
    (updateTuningInfo s (f * (2:ℝ) ^ (δ/1200)) now).cents = round δ := by
  obtain ⟨hrl, hru⟩ := rpow_cent_bounds hδ
  simp only [stdSkeleton, List.mem_cons, List.not_mem_nil, or_false,
    Prod.mk.injEq] at hmem
  rcases hmem with ⟨rfl, rfl⟩ | ⟨rfl, rfl⟩ | ⟨rfl, rfl⟩ | ⟨rfl, rfl⟩ |
    ⟨rfl, rfl⟩ | ⟨rfl, rfl⟩
  · have hc := closest_near0 hs
      (mul_le_mul_of_nonneg_left hrl (by norm_num : (0:ℝ) ≤ 82.41))
      (mul_le_mul_of_nonneg_left hru (by norm_num : (0:ℝ) ≤ 82.41))
    exact c1_case s _ _ δ now _ hc.1 hc.2
      (centsValue_shift 82.41 δ (by norm_num)) (round_abs_le hδ)
  · have hc := closest_near1 hs
      (mul_le_mul_of_nonneg_left hrl (by norm_num : (0:ℝ) ≤ 110.00))
      (mul_le_mul_of_nonneg_left hru (by norm_num : (0:ℝ) ≤ 110.00))
    exact c1_case s _ _ δ now _ hc.1 hc.2
      (centsValue_shift 110.00 δ (by norm_num)) (round_abs_le hδ)
  · have hc := closest_near2 hs
      (mul_le_mul_of_nonneg_left hrl (by norm_num : (0:ℝ) ≤ 146.83))
      (mul_le_mul_of_nonneg_left hru (by norm_num : (0:ℝ) ≤ 146.83))
    exact c1_case s _ _ δ now _ hc.1 hc.2
      (centsValue_shift 146.83 δ (by norm_num)) (round_abs_le hδ)
  · have hc := closest_near3 hs
      (mul_le_mul_of_nonneg_left hrl (by norm_num : (0:ℝ) ≤ 196.00))
      (mul_le_mul_of_nonneg_left hru (by norm_num : (0:ℝ) ≤ 196.00))
    exact c1_case s _ _ δ now _ hc.1 hc.2
      (centsValue_shift 196.00 δ (by norm_num)) (round_abs_le hδ)
  · have hc := closest_near4 hs
      (mul_le_mul_of_nonneg_left hrl (by norm_num : (0:ℝ) ≤ 246.94))
      (mul_le_mul_of_nonneg_left hru (by norm_num : (0:ℝ) ≤ 246.94))
    exact c1_case s _ _ δ now _ hc.1 hc.2
      (centsValue_shift 246.94 δ (by norm_num)) (round_abs_le hδ)
  · have hc := closest_near5 hs
      (mul_le_mul_of_nonneg_left hrl (by norm_num : (0:ℝ) ≤ 329.63))
      (mul_le_mul_of_nonneg_left hru (by norm_num : (0:ℝ) ≤ 329.63))
    exact c1_case s _ _ δ now _ hc.1 hc.2
      (centsValue_shift 329.63 δ (by norm_num)) (round_abs_le hδ)

/-- C1 witness: the low-E reference at offset 0 cents. -/
theorem tuner_match_and_cents_witness :
    skeletonOf initTuner.strings = stdSkeleton ∧
    ("E", (82.41:ℝ)) ∈ stdSkeleton ∧ |(0:ℝ)| ≤ 50 ∧
    (updateTuningInfo initTuner ((82.41:ℝ) * (2:ℝ) ^ ((0:ℝ)/1200)) 0).currentNote
      = "E" :=
  ⟨by simp [skeletonOf, initTuner, initStrings, stdSkeleton],
   by simp [stdSkeleton], by norm_num,
   (tuner_match_and_cents initTuner
      (by simp [skeletonOf, initTuner, initStrings, stdSkeleton])
      "E" 82.41 (by simp [stdSkeleton]) 0 (by norm_num) 0).2.2.2.2.1⟩

/-! ### Helper lemmas: tuner state updates -/

lemma markTuned_getStr (nm : String) (l : List GuitarString) (i : ℕ)
    (h : i < l.length) :
    getStr (markTuned nm l) i =
      (if (getStr l i).name = nm then { getStr l i with tuned := true }
       else getStr l i) := by
  induction l generalizing i with
  | nil => simp at h
  | cons x rest ih =>
    cases i with
    | zero => simp [markTuned, getStr]
    | succ n =>
      have hn : n < rest.length := by simpa using h
      simpa [markTuned, getStr] using ih n hn

lemma markTuned_skeleton (nm : String) (l : List GuitarString) :
    skeletonOf (markTuned nm l) = skeletonOf l := by
  induction l with
  | nil => rfl
  | cons x rest ih =>
    simp only [markTuned, skeletonOf, List.map_cons] at ih ⊢
    rw [ih]
    split_ifs <;> rfl

lemma update_strings_cases (s : TunerState) (freq : ℝ) (now : ℤ) :
    (updateTuningInfo s freq now).strings = s.strings ∨
    ((updateTuningInfo s freq now).strings =
        markTuned (findClosest freq s.strings).name s.strings ∧
      s.lastNote = (findClosest freq s.strings).name ∧
      |centsValue freq (findClosest freq s.strings).freq| ≤ 5 ∧
      2000 ≤ now - s.noteHoldTime) := by
  simp only [updateTuningInfo]
  split_ifs with h1 h2 h3
  · exact Or.inr ⟨rfl, h2, h3.1, h3.2⟩
  · exact Or.inl rfl
  · exact Or.inl rfl
  · exact Or.inl rfl

lemma update_skeleton (s : TunerState) (freq : ℝ) (now : ℤ) :
    skeletonOf (updateTuningInfo s freq now).strings = skeletonOf s.strings := by
  rcases update_strings_cases s freq now with h | ⟨h, _⟩ <;>
    rw [h]
  rw [markTuned_skeleton]

lemma update_new_note (s : TunerState) (freq : ℝ) (now : ℤ)
    (h50 : |centsValue freq (findClosest freq s.strings).freq| ≤ 50)
    (hne : ¬s.lastNote = (findClosest freq s.strings).name) :
    updateTuningInfo s freq now =
      { s with lastNote := (findClosest freq s.strings).name,
               noteHoldTime := now,
               currentNote := (findClosest freq s.strings).name,
               cents := centsValue freq (findClosest freq s.strings).freq } := by
  simp only [updateTuningInfo]
  rw [if_pos h50, if_neg hne]

lemma update_lock_eq (s : TunerState) (freq : ℝ) (now : ℤ)
    (h50 : |centsValue freq (findClosest freq s.strings).freq| ≤ 50)
    (hsame : s.lastNote = (findClosest freq s.strings).name)
    (h5 : |centsValue freq (findClosest freq s.strings).freq| ≤ 5)
    (hhold : now - s.noteHoldTime ≥ 2000) :
    updateTuningInfo s freq now =
      { s with strings := markTuned (findClosest freq s.strings).name s.strings,
               currentNote := (findClosest freq s.strings).name,
               cents := centsValue freq (findClosest freq s.strings).freq } := by
  simp only [updateTuningInfo]
  rw [if_pos h50, if_pos hsame, if_pos ⟨h5, hhold⟩]

lemma update_same_name_hold (s : TunerState) (freq : ℝ) (now : ℤ)
    (hsame : (findClosest freq s.strings).name = s.lastNote) :
    (updateTuningInfo s freq now).noteHoldTime = s.noteHoldTime := by
  simp only [updateTuningInfo]
  split_ifs with h1 h2 h3
  · rfl
  · rfl
  · exact absurd hsame.symm h2
  · rfl

lemma centsValue_self (f : ℝ) (hf : f ≠ 0) : centsValue f f = 0 := by
  unfold centsValue
  rw [div_self hf, Real.logb_one, mul_zero, round_zero]

lemma update_tuned_monotone (s : TunerState) (freq : ℝ) (now : ℤ) (i : ℕ)
    (hi : i < s.strings.length)
    (ht : (getStr s.strings i).tuned = true) :
    (getStr (updateTuningInfo s freq now).strings i).tuned = true := by
  rcases update_strings_cases s freq now with h | ⟨h, _⟩ <;> rw [h]
  · exact ht
  · rw [markTuned_getStr _ _ i hi]
    split_ifs <;> simp [ht]

lemma update_lock_conditions (s : TunerState) (freq : ℝ) (now : ℤ) (i : ℕ)
    (hi : i < s.strings.length)
    (hf : (getStr s.strings i).tuned = false)
    (ht : (getStr (updateTuningInfo s freq now).strings i).tuned = true) :
    s.lastNote = (findClosest freq s.strings).name ∧
    (getStr s.strings i).name = (findClosest freq s.strings).name ∧
    |centsValue freq (findClosest freq s.strings).freq| ≤ 5 ∧
    2000 ≤ now - s.noteHoldTime := by
  rcases update_strings_cases s freq now with h | ⟨h, hn, h5, hh⟩
  · rw [h, hf] at ht
    cases ht
  · rw [h, markTuned_getStr _ _ i hi] at ht
    by_cases hnm : (getStr s.strings i).name = (findClosest freq s.strings).name
    · exact ⟨hn, hnm, h5, hh⟩
    · rw [if_neg hnm, hf] at ht
      cases ht

lemma update_short_hold (s : TunerState) (freq : ℝ) (now : ℤ)
    (hlt : now - s.noteHoldTime < 2000) :
    (updateTuningInfo s freq now).strings = s.strings := by
  rcases update_strings_cases s freq now with h | ⟨_, _, _, hh⟩
  · exact h
  · exact absurd hh (not_le.mpr hlt)

/-! ### C2 -/

/-- C2 (amended): the `tuned` flag of a string entry becomes true only at
an update whose matched name equals the name tracked since the current
same-name run began, with `|centsOffset| ≤ 5` at that update and at
least 2000 ms elapsed since the run's hold-start timestamp; it is NOT
required that `|centsOffset| ≤ 5` held throughout those 2000 ms.  If
fewer than 2000 ms have elapsed since the hold-start, no flag is ever
set.  The transition is one-way: a set flag is never cleared. -/
theorem tuner_lock_requires_hold (s : TunerState) (freq : ℝ) (now : ℤ)
    (i : ℕ) (hi : i < s.strings.length) :
    ((getStr s.strings i).tuned = true →
      (getStr (updateTuningInfo s freq now).strings i).tuned = true) ∧
    ((getStr s.strings i).tuned = false →
      (getStr (updateTuningInfo s freq now).strings i).tuned = true →
      s.lastNote = (findClosest freq s.strings).name ∧
      (getStr s.strings i).name = (findClosest freq s.strings).name ∧
      |centsValue freq (findClosest freq s.strings).freq| ≤ 5 ∧
      2000 ≤ now - s.noteHoldTime) ∧
    (now - s.noteHoldTime < 2000 →
      (updateTuningInfo s freq now).strings = s.strings) :=
  ⟨update_tuned_monotone s freq now i hi,
   update_lock_conditions s freq now i hi,
   update_short_hold s freq now⟩

/-- C2 witness: the A-string entry of a tracker that has been holding
the name "A" since time 0, updated with 110 Hz at time 2000. -/
theorem tuner_lock_requires_hold_witness :
    1 < (TunerState.mk initStrings "A" 0 "" 0).strings.length ∧
    (2000 - (TunerState.mk initStrings "A" 0 "" 0).noteHoldTime < 2000 →
      (updateTuningInfo (TunerState.mk initStrings "A" 0 "" 0)
        110.00 2000).strings = (TunerState.mk initStrings "A" 0 "" 0).strings) :=
  ⟨by decide,
   (tuner_lock_requires_hold (TunerState.mk initStrings "A" 0 "" 0)
     110.00 2000 1 (by decide)).2.2⟩

/-- C2 counterexample: from the initial state, feed 110·2^(20/1200) Hz
(matched "A", cents = +20, out of tune) at time 0 and then 110 Hz
(cents = 0) at time 2000.  The A-string flag is still false after the
first update and becomes true at the second, although the pitch was
observed within ±5 cents only at that single final instant — the claim's
requirement of 2000 ms of continuous |centsOffset| ≤ 5 observation never
held, and the within-±5-cents span before the lock is 0 ms < 2000 ms. -/
theorem tuner_lock_without_sustained_in_tune :
    (updateTuningInfo initTuner ((110.00:ℝ) * (2:ℝ) ^ ((20:ℝ)/1200)) 0).cents
        = 20 ∧
    (getStr (updateTuningInfo initTuner
        ((110.00:ℝ) * (2:ℝ) ^ ((20:ℝ)/1200)) 0).strings 1).tuned = false ∧
    (getStr (updateTuningInfo
        (updateTuningInfo initTuner ((110.00:ℝ) * (2:ℝ) ^ ((20:ℝ)/1200)) 0)
        110.00 2000).strings 1).tuned = true := by
  have hskel : skeletonOf initTuner.strings = stdSkeleton := by
    simp [skeletonOf, initTuner, initStrings, stdSkeleton]
  have h20 : |(20:ℝ)| ≤ 50 := by norm_num
  have hb := rpow_cent_bounds h20
  have hc1 := closest_near1 hskel
    (mul_le_mul_of_nonneg_left hb.1 (by norm_num : (0:ℝ) ≤ 110.00))
    (mul_le_mul_of_nonneg_left hb.2 (by norm_num : (0:ℝ) ≤ 110.00))
  have hcents1 : centsValue ((110.00:ℝ) * (2:ℝ) ^ ((20:ℝ)/1200)) 110.00 = 20 := by
    rw [centsValue_shift 110.00 20 (by norm_num)]
    norm_num [round_eq]
  have hupd1 := update_new_note initTuner ((110.00:ℝ) * (2:ℝ) ^ ((20:ℝ)/1200)) 0
    (by rw [hc1.2, hcents1]; norm_num)
    (by rw [hc1.1]; simp [initTuner])
  refine ⟨?_, ?_, ?_⟩
  · rw [hupd1]
    show centsValue _ (findClosest _ initTuner.strings).freq = 20
    rw [hc1.2, hcents1]
  · rw [hupd1]
    show (getStr initTuner.strings 1).tuned = false
    decide
  · have hstr1 : (updateTuningInfo initTuner
        ((110.00:ℝ) * (2:ℝ) ^ ((20:ℝ)/1200)) 0).strings = initStrings := by
      rw [hupd1]
      rfl
    have hskel1 : skeletonOf (updateTuningInfo initTuner
        ((110.00:ℝ) * (2:ℝ) ^ ((20:ℝ)/1200)) 0).strings = stdSkeleton := by
      rw [hstr1]
      exact hskel
    have hc2 := closest_near1 hskel1
      (by norm_num : (110.00:ℝ) * (100/103) ≤ 110.00)
      (by norm_num : (110.00:ℝ) ≤ 110.00 * (103/100))
    have hcents2 : centsValue (110.00:ℝ) 110.00 = 0 :=
      centsValue_self _ (by norm_num)
    have hlast1 : (updateTuningInfo initTuner
        ((110.00:ℝ) * (2:ℝ) ^ ((20:ℝ)/1200)) 0).lastNote = "A" := by
      rw [hupd1]
      show (findClosest _ initTuner.strings).name = "A"
      exact hc1.1
    have hhold1 : (updateTuningInfo initTuner
        ((110.00:ℝ) * (2:ℝ) ^ ((20:ℝ)/1200)) 0).noteHoldTime = 0 := by
      rw [hupd1]
    have hlock := update_lock_eq
      (updateTuningInfo initTuner ((110.00:ℝ) * (2:ℝ) ^ ((20:ℝ)/1200)) 0)
      110.00 2000
      (by rw [hc2.2, hcents2]; norm_num)
      (by rw [hlast1, hc2.1])
      (by rw [hc2.2, hcents2]; norm_num)
      (by rw [hhold1]; norm_num)
    rw [hlock]
    show (getStr (markTuned (findClosest (110.00:ℝ) _).name _) 1).tuned = true
    rw [hc2.1, hstr1]
    decide

/-! ### Helper lemmas: shared-name flags -/

lemma update_flags_eq (s : TunerState) (freq : ℝ) (now : ℤ) (i j : ℕ)
    (hi : i < s.strings.length) (hj : j < s.strings.length)
    (hname : (getStr s.strings i).name = (getStr s.strings j).name)
    (hflag : (getStr s.strings i).tuned = (getStr s.strings j).tuned) :
    (getStr (updateTuningInfo s freq now).strings i).tuned =
      (getStr (updateTuningInfo s freq now).strings j).tuned := by
  rcases update_strings_cases s freq now with h | ⟨h, _⟩ <;> rw [h]
  · exact hflag
  · rw [markTuned_getStr _ _ i hi, markTuned_getStr _ _ j hj, hname]
    split_ifs <;> simp [hflag]

lemma update_marks_all (s : TunerState) (freq : ℝ) (now : ℤ) (i j : ℕ)
    (hi : i < s.strings.length) (hj : j < s.strings.length)
    (hfi : (getStr s.strings i).tuned = false)
    (hti : (getStr (updateTuningInfo s freq now).strings i).tuned = true)
    (hnm : (getStr s.strings j).name = (getStr s.strings i).name) :
    (getStr (updateTuningInfo s freq now).strings j).tuned = true := by
  have hcond := update_lock_conditions s freq now i hi hfi hti
  rcases update_strings_cases s freq now with h | ⟨h, _⟩
  · rw [h, hfi] at hti
    cases hti
  · rw [h, markTuned_getStr _ _ j hj, hnm, hcond.2.1, if_pos rfl]

lemma skeleton_length {l : List GuitarString}
    (h : skeletonOf l = stdSkeleton) : l.length = 6 := by
  have hlen := congrArg List.length h
  simpa [skeletonOf, stdSkeleton] using hlen

lemma skeleton_names {l : List GuitarString}
    (h : skeletonOf l = stdSkeleton) :
    (getStr l 0).name = "E" ∧ (getStr l 5).name = "E" := by
  obtain ⟨g0, g1, g2, g3, g4, g5, rfl, hn0, _, _, _, _, _, _, _, _, _,
    hn5, _⟩ := strings_shape h
  exact ⟨hn0, hn5⟩

lemma tuner_trace_inv (trace : List (ℝ × ℤ)) :
    ∀ s : TunerState, skeletonOf s.strings = stdSkeleton →
    (getStr s.strings 0).tuned = (getStr s.strings 5).tuned →
    skeletonOf (tunerRun s trace).strings = stdSkeleton ∧
    (getStr (tunerRun s trace).strings 0).tuned =
      (getStr (tunerRun s trace).strings 5).tuned := by
  induction trace with
  | nil => intro s h1 h2; exact ⟨h1, h2⟩
  | cons p rest ih =>
    intro s h1 h2
    have hlen := skeleton_length h1
    have hstep1 : skeletonOf (updateTuningInfo s p.1 p.2).strings =
        stdSkeleton := by
      rw [update_skeleton]
      exact h1
    have hnames := skeleton_names h1
    have hstep2 := update_flags_eq s p.1 p.2 0 5 (by omega) (by omega)
      (hnames.1.trans hnames.2.symm) h2
    have hrest := ih (updateTuningInfo s p.1 p.2) hstep1 hstep2
    simpa [tunerRun, List.foldl_cons] using hrest

/-! ### C9 -/

/-- C9: string entries are identified by name; marking is done by a
name-keyed map, so an update that flips one entry's `tuned` flag sets
the flag of every entry bearing the same name, and entries with equal
names and equal flags keep equal flags across any update.  In
particular, along every trace from the initial state, the low-E and
high-E entries (both named "E") always carry the same `tuned` flag.
Moreover an update whose matched name equals the tracked `lastNote`
never resets the hold-start timestamp — switching between a frequency
matching low E and one matching high E therefore keeps the hold timer,
because the comparison is by name alone. -/
theorem e_string_shared_name (s : TunerState) (freq : ℝ) (now : ℤ)
    (i j : ℕ) (hi : i < s.strings.length) (hj : j < s.strings.length)
    (hname : (getStr s.strings i).name = (getStr s.strings j).name)
    (hflag : (getStr s.strings i).tuned = (getStr s.strings j).tuned) :
    ((getStr (updateTuningInfo s freq now).strings i).tuned =
      (getStr (updateTuningInfo s freq now).strings j).tuned) ∧
    ((getStr s.strings i).tuned = false →
      (getStr (updateTuningInfo s freq now).strings i).tuned = true →
      (getStr (updateTuningInfo s freq now).strings j).tuned = true) ∧
    (∀ trace : List (ℝ × ℤ),
      (getStr (tunerRun initTuner trace).strings 0).tuned =
        (getStr (tunerRun initTuner trace).strings 5).tuned) ∧
    ((findClosest freq s.strings).name = s.lastNote →
      (updateTuningInfo s freq now).noteHoldTime = s.noteHoldTime) :=
  ⟨update_flags_eq s freq now i j hi hj hname hflag,
   fun hfi hti => update_marks_all s freq now i j hi hj hfi hti hname.symm,
   fun trace => (tuner_trace_inv trace initTuner
     (by simp [skeletonOf, initTuner, initStrings, stdSkeleton]) rfl).2,
   update_same_name_hold s freq now⟩

/-- C9 witness: a tracker holding the name "E" (matched at low E),
updated with the high-E frequency 329.63 Hz: the matched name is again
"E" and the hold-start timestamp is kept. -/
theorem e_string_shared_name_witness :
    ((findClosest (329.63:ℝ)
        (TunerState.mk initStrings "E" 0 "" 0).strings).name
      = (TunerState.mk initStrings "E" 0 "" 0).lastNote) ∧
    (updateTuningInfo (TunerState.mk initStrings "E" 0 "" 0)
        329.63 100).noteHoldTime
      = (TunerState.mk initStrings "E" 0 "" 0).noteHoldTime := by
  have hskel : skeletonOf (TunerState.mk initStrings "E" 0 "" 0).strings
      = stdSkeleton := by
    simp [skeletonOf, initStrings, stdSkeleton]
  have hc := closest_near5 hskel
    (by norm_num : (329.63:ℝ) * (100/103) ≤ 329.63)
    (by norm_num : (329.63:ℝ) ≤ 329.63 * (103/100))
  exact ⟨hc.1,
    (e_string_shared_name (TunerState.mk initStrings "E" 0 "" 0) 329.63 100
      0 0 (by decide) (by decide) rfl rfl).2.2.2 hc.1⟩

/-! ### C3 -/

/-- C3: from the idle state, `start` sets `beatCount` to −1 and fires the
first tick immediately, so the emitted first beat has `beatCount = 0`,
`currentBeat = 0`, downbeat timbre, and the engine is left playing with
a timer armed at `60000/bpm`; consequently `setBPM(120); start()`
followed by `stop()` after exactly 4 ticks emits the `beatCount`
sequence 0,1,2,3 and the `currentBeat` sequence 0,1,2,3, with
`currentBeat = beatCount % 4` at every tick. -/
theorem metronome_start_first_tick :
    (∀ s : MetState, s.isPlaying = false →
      (metStep s .start).2 = [⟨0, 0, true⟩] ∧
      (metStep s .start).1.beatCount = 0 ∧
      (metStep s .start).1.currentBeat = 0 ∧
      (metStep s .start).1.isPlaying = true ∧
      (metStep s .start).1.pending = some (60000 / s.bpm, false)) ∧
    (metRun metInit
        [.setBPM 120, .start, .timerFire, .timerFire, .timerFire, .stop]).2 =
      [⟨0, 0, true⟩, ⟨1, 1, false⟩, ⟨2, 2, false⟩, ⟨3, 3, false⟩] ∧
    (∀ b ∈ (metRun metInit
        [.setBPM 120, .start, .timerFire, .timerFire, .timerFire, .stop]).2,
      b.beatInMeasure = Int.tmod b.beatCount 4) := by
  refine ⟨?_, by decide, by decide⟩
  intro s hs
  have h1 : metStep s .start =
      ({ s with isPlaying := true,
                pending := some (60000 / s.bpm, false),
                beatCount := 0, currentBeat := 0 }, [⟨0, 0, true⟩]) := by
    simp [metStep, hs, playBeat, scheduleNextBeat]
  rw [h1]
  exact ⟨rfl, rfl, rfl, rfl, rfl⟩

/-- C3 witness: the constructor state. -/
theorem metronome_start_first_tick_witness :
    metInit.isPlaying = false ∧ (metStep metInit .start).2 = [⟨0, 0, true⟩] :=
  ⟨rfl, (metronome_start_first_tick.1 metInit rfl).1⟩

/-! ### C4 -/

/-- C4: while playing with a pending timer, `setBPM(v)` clamps `v` to
[40, 300], stores the clamped tempo, cancels the pending single-shot
timer and re-arms it immediately at `60000 / clamped`, leaving
`beatCount` and the measure position untouched and emitting no beat; and
every timer expiry re-arms a fresh single-shot timer whose interval is
read from the tempo current at re-arm time, so a tempo change takes
effect on the very next tick. -/
theorem metronome_setBPM_rearm (s : MetState) (v : ℚ)
    (hp : s.isPlaying = true) (hpend : s.pending.isSome = true) :
    (metStep s (.setBPM v)).1.bpm = min (max v 40) 300 ∧
    40 ≤ (metStep s (.setBPM v)).1.bpm ∧
    (metStep s (.setBPM v)).1.bpm ≤ 300 ∧
    (metStep s (.setBPM v)).1.pending =
      some (60000 / min (max v 40) 300, true) ∧
    (metStep s (.setBPM v)).1.beatCount = s.beatCount ∧
    (metStep s (.setBPM v)).1.currentBeat = s.currentBeat ∧
    (metStep s (.setBPM v)).2 = [] ∧
    (∀ t : MetState, t.isPlaying = true → t.pending.isSome = true →
      (metStep t .timerFire).1.pending = some (60000 / t.bpm, false) ∧
      (metStep t .timerFire).1.bpm = t.bpm) := by
  have hstep : metStep s (.setBPM v) =
      ({ s with bpm := min (max v 40) 300,
                pending := some (60000 / min (max v 40) 300, true) }, []) := by
    simp [metStep, hp, hpend]
  rw [hstep]
  refine ⟨rfl, le_min (le_max_right v 40) (by norm_num),
    min_le_right _ _, rfl, rfl, rfl, rfl, ?_⟩
  intro t htp htpend
  obtain ⟨⟨iv, b⟩, hpd⟩ := Option.isSome_iff_exists.mp htpend
  cases b <;>
    simp [metStep, hpd, htp, playBeat, scheduleNextBeat]

/-- C4 witness: a playing state with a pending 500 ms timer and the
out-of-range request 350. -/
theorem metronome_setBPM_rearm_witness :
    (MetState.mk true (some (500, false)) 120 0 0).isPlaying = true ∧
    (metStep (MetState.mk true (some (500, false)) 120 0 0)
        (.setBPM 350)).1.bpm = min (max 350 40) 300 :=
  ⟨rfl, (metronome_setBPM_rearm (MetState.mk true (some (500, false)) 120 0 0)
     350 rfl rfl).1⟩

/-! ### C5 -/

/-- C5: `stop()` clears the playing flag and cancels any pending
single-shot timer, emits nothing, and leaves `beatCount` and
`currentBeat` unchanged; after `stop()` any number of timer expiries
fires no tick and leaves the state unchanged. -/
theorem metronome_stop_cancels :
    (∀ s : MetState,
      (metStep s .stop).1.isPlaying = false ∧
      (metStep s .stop).1.pending = none ∧
      (metStep s .stop).1.beatCount = s.beatCount ∧
      (metStep s .stop).1.currentBeat = s.currentBeat ∧
      (metStep s .stop).2 = []) ∧
    (∀ (s : MetState) (n : ℕ),
      (metRun (metStep s .stop).1 (List.replicate n .timerFire)).2 = [] ∧
      (metRun (metStep s .stop).1 (List.replicate n .timerFire)).1 =
        (metStep s .stop).1) := by
  have hfire : ∀ t : MetState, t.pending = none →
      metStep t .timerFire = (t, []) := by
    intro t ht
    simp [metStep, ht]
  have hrep : ∀ (n : ℕ) (t : MetState), t.pending = none →
      metRun t (List.replicate n .timerFire) = (t, []) := by
    intro n
    induction n with
    | zero => intro t _; rfl
    | succ m ih =>
      intro t ht
      rw [List.replicate_succ]
      show runOf metStep t (.timerFire :: List.replicate m .timerFire) = (t, [])
      rw [runOf, hfire t ht]
      have hm := ih t ht
      rw [metRun] at hm
      simp [hm]
  refine ⟨fun s => ⟨rfl, rfl, rfl, rfl, rfl⟩, fun s n => ?_⟩
  have hres := hrep n (metStep s .stop).1 rfl
  rw [hres]
  exact ⟨rfl, rfl⟩

/-! ### Helper lemmas: comparing the two metronome engines -/

lemma runOf_append {σ ε β : Type} (step : σ → ε → σ × List β)
    (s : σ) (l : List ε) (e : ε) :
    runOf step s (l ++ [e]) =
      ((step (runOf step s l).1 e).1,
       (runOf step s l).2 ++ (step (runOf step s l).1 e).2) := by
  induction l generalizing s with
  | nil => simp [runOf]
  | cons x rest ih =>
    simp [runOf, ih, List.append_assoc]

lemma coe_tmod4 (m : ℕ) :
    Int.tmod (m : ℤ) (4 : ℤ) = ((m % 4 : ℕ) : ℤ) := rfl

lemma tmod_succ_coe (a : ℕ) :
    Int.tmod (((a % 4 : ℕ) : ℤ) + 1) 4 = (((a + 1) % 4 : ℕ) : ℤ) := by
  have h1 : ((a % 4 : ℕ) : ℤ) + 1 = ((a % 4 + 1 : ℕ) : ℤ) := by push_cast; ring
  rw [h1, coe_tmod4]
  congr 1
  omega

lemma tmod_coe_succ (m : ℕ) :
    Int.tmod ((m : ℤ) + 1) 4 = (((m + 1) % 4 : ℕ) : ℤ) := by
  have h1 : (m : ℤ) + 1 = ((m + 1 : ℕ) : ℤ) := by push_cast; ring
  rw [h1, coe_tmod4]

lemma metStep_fire_run (bpm iv : ℚ) (bc cb : ℤ) :
    metStep ⟨true, some (iv, false), bpm, bc, cb⟩ .timerFire =
      (⟨true, some (60000 / bpm, false), bpm, bc + 1, Int.tmod (bc + 1) 4⟩,
       [⟨bc + 1, Int.tmod (bc + 1) 4, Int.tmod (bc + 1) 4 == 0⟩]) := by
  simp [metStep, playBeat, scheduleNextBeat]

lemma legStep_fire_run (bpm iv : ℚ) (bc cb : ℤ) :
    legStep ⟨true, some iv, bpm, bc, cb⟩ .timerFire =
      (⟨true, some iv, bpm, bc, Int.tmod (cb + 1) 4⟩, [cb == 0]) := by
  simp [legStep, legPlayBeat]

lemma fresh_traces (n : ℕ) :
    (legRun legInit (.start :: List.replicate n .timerFire)).1 =
      ⟨true, some (60000 / 120), 120, 0, (((n + 1) % 4 : ℕ) : ℤ)⟩ ∧
    (metRun metInit (.start :: List.replicate n .timerFire)).1 =
      ⟨true, some (60000 / 120, false), 120, (n : ℤ), ((n % 4 : ℕ) : ℤ)⟩ ∧
    (legRun legInit (.start :: List.replicate n .timerFire)).2 =
      ((metRun metInit (.start :: List.replicate n .timerFire)).2).map
        Beat.isDownbeat := by
  induction n with
  | zero => exact ⟨rfl, rfl, rfl⟩
  | succ m ih =>
    obtain ⟨ihL, ihM, ihO⟩ := ih
    have hlist : (MetEvent.start :: List.replicate (m + 1) MetEvent.timerFire) =
        (MetEvent.start :: List.replicate m MetEvent.timerFire) ++
          [MetEvent.timerFire] := by
      rw [List.replicate_succ']
      rfl
    simp only [metRun, legRun] at ihL ihM ihO ⊢
    rw [hlist, runOf_append legStep, runOf_append metStep, ihL, ihM, ihO,
      legStep_fire_run, metStep_fire_run]
    refine ⟨?_, ?_, ?_⟩
    · rw [tmod_succ_coe (m + 1)]
    · rw [tmod_coe_succ m]
      rw [show (m : ℤ) + 1 = ((m + 1 : ℕ) : ℤ) from by push_cast; ring]
    · rw [List.map_append, tmod_coe_succ m]
      rfl

/-! ### C10 -/

/-- C10 counterexample: the two `MetronomeSound` classes are not
observationally equivalent.  `setBPM(350)` stores 350 in the legacy
engine (no clamping) but 300 in the callback-equipped engine; and after
`start` plus one timer expiry the legacy engine reports
`beatCount = 0, currentBeat = 2` (it never increments `beatCount` and
advances `currentBeat` after the click) while the new engine reports
`beatCount = 1, currentBeat = 1`. -/
theorem engines_not_equivalent :
    (legStep legInit (.setBPM 350)).1.bpm = 350 ∧
    (metStep metInit (.setBPM 350)).1.bpm = 300 ∧
    (legRun legInit [.start, .timerFire]).1.beatCount = 0 ∧
    (metRun metInit [.start, .timerFire]).1.beatCount = 1 ∧
    (legRun legInit [.start, .timerFire]).1.currentBeat = 2 ∧
    (metRun metInit [.start, .timerFire]).1.currentBeat = 1 := by
  refine ⟨by decide, by decide, by decide, by decide, by decide, by decide⟩

/-- C10 (amended): the engines agree only partially.  For any `setBPM`
argument already inside [40, 300] both store the same tempo, and from a
fresh start the two engines emit the same downbeat pattern tick for
tick; but they are not observationally equivalent in general (see the
counterexample: out-of-range tempos and the `beatCount`/`currentBeat`
bookkeeping differ). -/
theorem engines_partial_agreement :
    (∀ (sl : LegState) (sm : MetState) (v : ℚ), 40 ≤ v → v ≤ 300 →
      (legStep sl (.setBPM v)).1.bpm = v ∧
      (metStep sm (.setBPM v)).1.bpm = v) ∧
    (∀ n : ℕ,
      (legRun legInit (.start :: List.replicate n .timerFire)).2 =
        ((metRun metInit (.start :: List.replicate n .timerFire)).2).map
          Beat.isDownbeat) := by
  constructor
  · intro sl sm v h1 h2
    have hclamp : min (max v 40) 300 = v := by
      rw [max_eq_left h1, min_eq_left h2]
    constructor
    · simp only [legStep]
      split_ifs <;> rfl
    · simp only [metStep]
      split_ifs <;> simp [hclamp]
  · intro n
    exact (fresh_traces n).2.2

/-- C10 amended-claim witness: both engines accept 120. -/
theorem engines_partial_agreement_witness :
    ((40:ℚ) ≤ 120 ∧ (120:ℚ) ≤ 300) ∧
    (legStep legInit (.setBPM 120)).1.bpm = 120 :=
  ⟨⟨by norm_num, by norm_num⟩,
   (engines_partial_agreement.1 legInit metInit 120
     (by norm_num) (by norm_num)).1⟩

/-! ### Helper lemmas: tap tempo -/

lemma sliceLast4_length (l : List ℤ) : (sliceLast4 l).length ≤ 4 := by
  simp only [sliceLast4, List.length_drop]
  omega

lemma registerTap_fst (l : List ℤ) (now : ℤ) :
    (registerTap l now).1 = sliceLast4 (l ++ [now]) := by
  simp only [registerTap]
  split_ifs <;> rfl

lemma registerTap_snd (l : List ℤ) (now : ℤ) :
    (registerTap l now).2 =
      (if 1 < (sliceLast4 (l ++ [now])).length ∧
          40 ≤ tapBpm (sliceLast4 (l ++ [now])) ∧
          tapBpm (sliceLast4 (l ++ [now])) ≤ 300
       then some (tapBpm (sliceLast4 (l ++ [now]))) else none) := by
  simp only [registerTap]
  split_ifs <;> tauto

/-! ### C6 -/

/-- C6: each tap is appended to a history capped at the 4 most recent
timestamps (oldest dropped); with more than one tap the estimator
computes `round(60000 / mean inter-tap interval)` and applies it exactly
when it lies in [40, 300], otherwise yielding no estimate; 4 taps at
exactly 500 ms intervals yield the estimate 120 BPM, and taps 171 ms
apart compute `round(60000/171) = 351`, outside [40, 300], so no
estimate is applied. -/
theorem tap_tempo_estimation :
    (∀ (l : List ℤ) (now : ℤ),
      (registerTap l now).1 = sliceLast4 (l ++ [now]) ∧
      (registerTap l now).1.length ≤ 4) ∧
    (∀ (l : List ℤ) (now : ℤ),
      (registerTap l now).2 =
        (if 1 < (sliceLast4 (l ++ [now])).length ∧
            40 ≤ tapBpm (sliceLast4 (l ++ [now])) ∧
            tapBpm (sliceLast4 (l ++ [now])) ≤ 300
         then some (tapBpm (sliceLast4 (l ++ [now]))) else none)) ∧
    tapFold [0, 500, 1000, 1500] = ([0, 500, 1000, 1500], some 120) ∧
    tapBpm [0, 171] = 351 ∧
    tapFold [0, 171] = ([0, 171], none) := by
  refine ⟨fun l now => ⟨registerTap_fst l now, ?_⟩,
    registerTap_snd, ?_, ?_, ?_⟩
  · rw [registerTap_fst]
    exact sliceLast4_length _
  · norm_num [tapFold, registerTap, sliceLast4, tapIntervals, tapBpm, round_eq]
  · norm_num [tapBpm, tapIntervals, round_eq]
  · norm_num [tapFold, registerTap, sliceLast4, tapIntervals, tapBpm, round_eq]

/-! ### C7 -/

/-- C7 counterexample: a frame with clarity exactly 0.8 and pitch 440 Hz
satisfies the claim's closed acceptance region (confidence not below
0.8, frequency inside [50, 2000]) yet the code takes the no-pitch branch
(`detectedClarity > 0.8` is strict); the boundary frequencies 50 Hz and
2000 Hz are likewise rejected even at full clarity. -/
theorem pitch_gate_boundary :
    acceptPitch 440 0.8 = false ∧
    ¬((0.8:ℚ) < 0.8 ∨ (440:ℚ) < 50 ∨ (2000:ℚ) < 440) ∧
    acceptPitch 50 1 = false ∧
    acceptPitch 2000 1 = false ∧
    detectStep [] 440 0.8 = ([], none) := by
  norm_num [acceptPitch, detectStep]

/-- C7 (amended): a frame is rejected — the no-pitch branch is taken and
the buffer is cleared, with no stale value used — if and only if its
clarity is at most 0.8 or its frequency is at most 50 Hz or at least
2000 Hz; frames with clarity strictly above 0.8 and frequency strictly
inside (50, 2000) are accepted and produce an emitted value. -/
theorem pitch_gate_strict (p c : ℚ) (h : List ℚ) :
    (acceptPitch p c = false ↔ c ≤ 0.8 ∨ p ≤ 50 ∨ 2000 ≤ p) ∧
    (acceptPitch p c = true ↔ 0.8 < c ∧ 50 < p ∧ p < 2000) ∧
    (acceptPitch p c = false → detectStep h p c = ([], none)) ∧
    (acceptPitch p c = true → (detectStep h p c).2 ≠ none) := by
  have htrue : acceptPitch p c = true ↔ 0.8 < c ∧ 50 < p ∧ p < 2000 := by
    simp [acceptPitch, and_assoc]
  have hfalse : acceptPitch p c = false ↔ c ≤ 0.8 ∨ p ≤ 50 ∨ 2000 ≤ p := by
    rw [← Bool.not_eq_true, htrue, not_and_or, not_and_or]
    simp [not_lt]
  exact ⟨hfalse, htrue, fun hf => by simp [detectStep, hf],
    fun ht => by simp [detectStep, ht]⟩

/-- C7 witness: an implausibly low frame (40 Hz at clarity 1/2) is
rejected and clears the buffer. -/
theorem pitch_gate_strict_witness :
    acceptPitch 40 (1/2) = false ∧ detectStep [] 40 (1/2) = ([], none) := by
  have hf : acceptPitch 40 (1/2) = false := by norm_num [acceptPitch]
  exact ⟨hf, (pitch_gate_strict 40 (1/2) []).2.2.1 hf⟩

/-! ### C8 -/

/-- C8: the smoother keeps a FIFO of at most 5 accepted frequencies; on
every accepted frame it pushes the frequency (dropping the oldest beyond
5) and emits the arithmetic mean of the resulting non-empty window; on
any rejected frame it clears the FIFO and emits no value, and the next
accepted frame after a rejection averages over `[p']` alone — no
average computed from pre-gap history is ever emitted after a
rejection. -/
theorem pitch_smoother_window (hist : List ℚ) (p c p2 c2 : ℚ)
    (hlen : hist.length ≤ 5) :
    (acceptPitch p c = false → detectStep hist p c = ([], none)) ∧
    (acceptPitch p c = true →
      (detectStep hist p c).1 =
        (if (hist ++ [p]).length > 5 then (hist ++ [p]).drop 1
         else hist ++ [p]) ∧
      (detectStep hist p c).1.length ≤ 5 ∧
      (detectStep hist p c).1 ≠ [] ∧
      (detectStep hist p c).2 =
        some ((detectStep hist p c).1.sum /
          ((detectStep hist p c).1.length : ℚ))) ∧
    (acceptPitch p c = false → acceptPitch p2 c2 = true →
      detectStep (detectStep hist p c).1 p2 c2 = ([p2], some p2)) := by
  refine ⟨fun hf => by simp [detectStep, hf], fun ht => ?_, fun hf ht => ?_⟩
  · have hfst : (detectStep hist p c).1 =
        (if (hist ++ [p]).length > 5 then (hist ++ [p]).drop 1
         else hist ++ [p]) := by
      simp [detectStep, ht]
    have hsnd : (detectStep hist p c).2 =
        some ((detectStep hist p c).1.sum /
          ((detectStep hist p c).1.length : ℚ)) := by
      simp [detectStep, ht]
    refine ⟨hfst, ?_, ?_, hsnd⟩
    · rw [hfst]
      split_ifs with hsz
      · simp only [List.length_drop, List.length_append, List.length_cons,
          List.length_nil]
        omega
      · simp only [List.length_append, List.length_cons, List.length_nil]
        simp only [List.length_append, List.length_cons, List.length_nil,
          gt_iff_lt, not_lt] at hsz
        omega
    · rw [hfst]
      split_ifs with hsz
      · intro hcontra
        have hzero := congrArg List.length hcontra
        simp only [List.length_drop, List.length_append, List.length_cons,
          List.length_nil] at hzero hsz
        omega
      · intro hcontra
        have hzero := congrArg List.length hcontra
        simp only [List.length_append, List.length_cons,
          List.length_nil] at hzero
        omega
  · have h1 : detectStep hist p c = ([], none) := by simp [detectStep, hf]
    rw [h1]
    simp [detectStep, ht]

/-- C8 witness: an empty buffer accepting 100 Hz at clarity 1 emits the
mean of its one-element window. -/
theorem pitch_smoother_window_witness :
    ([] : List ℚ).length ≤ 5 ∧ acceptPitch 100 1 = true ∧
    (detectStep [] 100 1).2 =
      some ((detectStep [] 100 1).1.sum /
        (((detectStep [] 100 1).1.length : ℕ) : ℚ)) := by
  have ha : acceptPitch 100 1 = true := by norm_num [acceptPitch]
  exact ⟨by simp, ha,
    ((pitch_smoother_window [] 100 1 200 1 (by simp)).2.1 ha).2.2.2⟩
